import Mathlib

/-!
Verification of the Thought Ledger core of the sequential-thinking MCP server.

The embedding follows the Python source:
  * `src/src/sequential_thinking/models.py` — the pydantic model `ThoughtData`
    with its field constraints (`ge=1`, `min_length=1`) and validators
    (`validate_total_thoughts_minimum`, `validate_revises_thought`,
    `validate_branch_id`, `validate_thought_numbers`);
  * `src/src/main.py` — `AppContext` (`thought_history`, `branches`,
    `add_thought`, `get_branch_thoughts`, `get_all_branches`) and the
    `sequentialthinking` tool body (validation, the derived
    `nextThoughtNeeded`, history/branch updates, prompt assembly with the
    original-thought lookup, delegation to the team and error handling).

Machine integers are modelled as `Int` (Python ints are unbounded); pydantic
validation is modelled as `Except String ThoughtData`: pydantic accumulates
field errors while this model stops at the first one, but a submission is
accepted by pydantic iff no check fires at all, and on acceptance the
constructed value is the same, so the acceptance predicate and the accepted
value coincide with the source.
-/

/-- Raw fields of one `sequentialthinking` call, before validation: exactly
the parameter list of the tool in `src/src/main.py` (defaults included). -/
structure RawInput where
  thought : String
  thoughtNumber : Int
  totalThoughts : Int
  nextThoughtNeeded : Bool
  isRevision : Bool := false
  revisesThought : Option Int := none
  branchFromThought : Option Int := none
  branchId : Option String := none
  needsMoreThoughts : Bool := false
deriving Repr, DecidableEq

/-- A validated, immutable `ThoughtData` record (pydantic model with
`frozen=True` in `models.py`). -/
structure ThoughtData where
  thought : String
  thoughtNumber : Int
  totalThoughts : Int
  nextThoughtNeeded : Bool
  isRevision : Bool
  revisesThought : Option Int
  branchFromThought : Option Int
  branchId : Option String
  needsMoreThoughts : Bool
deriving Repr, DecidableEq

namespace ThoughtData

/-- `MIN_TOTAL_THOUGHTS: ClassVar[int] = 5` in `models.py`. -/
def MIN_TOTAL_THOUGHTS : Int := 5

/-- `validate_total_thoughts_minimum` in `models.py`: values below the
minimum are raised to it (clamping, no rejection). -/
def validate_total_thoughts_minimum (v : Int) : Int :=
  if v < MIN_TOTAL_THOUGHTS then MIN_TOTAL_THOUGHTS else v

end ThoughtData

/-- The `ThoughtData` value constructed once every check of `models.py`
has passed: every raw field copied through, `totalThoughts` clamped. -/
def mkThoughtData (raw : RawInput) : ThoughtData :=
  { thought := raw.thought
    thoughtNumber := raw.thoughtNumber
    totalThoughts := ThoughtData.validate_total_thoughts_minimum raw.totalThoughts
    nextThoughtNeeded := raw.nextThoughtNeeded
    isRevision := raw.isRevision
    revisesThought := raw.revisesThought
    branchFromThought := raw.branchFromThought
    branchId := raw.branchId
    needsMoreThoughts := raw.needsMoreThoughts }

/-- Checks on `branchFromThought` and `branchId`: the `ge=1` field
constraint on `branchFromThought`, the `validate_branch_id` field validator
(`branchId` set while `branchFromThought` is unset is an error; nothing is
checked in the converse direction), and the `validate_thought_numbers`
model validator (`branchFromThought` must be `< thoughtNumber`). -/
def checkBranchFields (raw : RawInput) : Except String ThoughtData :=
  match raw.branchFromThought with
  | some v =>
      if v < 1 then
        Except.error "branchFromThought must be greater than or equal to 1"
      else if raw.thoughtNumber ≤ v then
        Except.error "branchFromThought must be less than thoughtNumber"
      else Except.ok (mkThoughtData raw)
  | none =>
      match raw.branchId with
      | some _ => Except.error "branchId can only be set when branchFromThought is set"
      | none => Except.ok (mkThoughtData raw)

/-- Checks on `revisesThought`: the `ge=1` field constraint and the
`validate_revises_thought` field validator (`revisesThought` set while
`isRevision` is false is an error; `revisesThought ≥ thoughtNumber` is an
error; nothing rejects `isRevision = true` with `revisesThought` unset). -/
def checkRevisionFields (raw : RawInput) : Except String ThoughtData :=
  match raw.revisesThought with
  | some v =>
      if v < 1 then
        Except.error "revisesThought must be greater than or equal to 1"
      else if raw.isRevision = false then
        Except.error "revisesThought can only be set when isRevision is True"
      else if raw.thoughtNumber ≤ v then
        Except.error "revisesThought must be less than thoughtNumber"
      else checkBranchFields raw
  | none => checkBranchFields raw

/-- Construction of `ThoughtData` in `models.py`: the `min_length=1`
constraint on `thought`, `ge=1` on `thoughtNumber` and `totalThoughts`,
then clamping and the field/model validators, in field order. -/
def validateThoughtData (raw : RawInput) : Except String ThoughtData :=
  if raw.thought.length < 1 then
    Except.error "thought must have at least 1 character"
  else if raw.thoughtNumber < 1 then
    Except.error "thoughtNumber must be greater than or equal to 1"
  else if raw.totalThoughts < 1 then
    Except.error "totalThoughts must be greater than or equal to 1"
  else checkRevisionFields raw

/-- Whether validation accepted the submission. -/
def isAccepted (r : Except String ThoughtData) : Bool :=
  match r with
  | Except.ok _ => true
  | Except.error _ => false

/-- The Ledger state of `main.py`: `AppContext.thought_history` and
`AppContext.branches`. The Python `branches` is a `Dict[str, List[ThoughtData]]`;
Python dicts preserve key insertion order, so it is modelled as an
association list with insertion-ordered keys. The `team` field is an
external collaborator and is passed to the tool as a delegate instead. -/
structure AppContext where
  thought_history : List ThoughtData := []
  branches : List (String × List ThoughtData) := []
deriving Repr, DecidableEq

/-- `self.branches[branchId].append(thought)` with
`if thought.branchId not in self.branches: self.branches[...] = []` first:
append to the entry with the given key, or add a fresh entry at the end. -/
def appendToBranches (bs : List (String × List ThoughtData)) (bid : String)
    (t : ThoughtData) : List (String × List ThoughtData) :=
  match bs with
  | [] => [(bid, [t])]
  | (k, ts) :: rest =>
      if k = bid then (k, ts ++ [t]) :: rest
      else (k, ts) :: appendToBranches rest bid t

namespace AppContext

/-- `AppContext.add_thought` in `main.py`: always append to history; add to
the branch bucket only when BOTH `branchFromThought` and `branchId` are set. -/
def add_thought (ctx : AppContext) (t : ThoughtData) : AppContext :=
  match t.branchFromThought, t.branchId with
  | some _, some bid =>
      { thought_history := ctx.thought_history ++ [t]
        branches := appendToBranches ctx.branches bid t }
  | _, _ =>
      { thought_history := ctx.thought_history ++ [t]
        branches := ctx.branches }

/-- `AppContext.get_branch_thoughts`: `self.branches.get(branch_id, [])`. -/
def get_branch_thoughts (ctx : AppContext) (bid : String) : List ThoughtData :=
  match ctx.branches.find? (fun p => p.fst = bid) with
  | some p => p.snd
  | none => []

/-- `AppContext.get_all_branches`: branch ids with their bucket lengths. -/
def get_all_branches (ctx : AppContext) : List (String × Nat) :=
  ctx.branches.map (fun p => (p.fst, p.snd.length))

end AppContext

/-- The loop in `sequentialthinking` that recovers the text of the thought
being revised: scan the pre-call history front to back, return the FIRST
entry whose `thoughtNumber` matches, else the placeholder. -/
def findOriginalThoughtText : List ThoughtData → Int → String
  | [], _ => "Unknown Original Thought"
  | h :: rest, n =>
      if h.thoughtNumber = n then h.thought else findOriginalThoughtText rest n

/-- The analogous loop for a branch step, with its own placeholder. -/
def findBranchPointText : List ThoughtData → Int → String
  | [], _ => "Unknown Branch Point"
  | h :: rest, n =>
      if h.thoughtNumber = n then h.thought else findBranchPointText rest n

/-- The `input_prompt` assembled in `sequentialthinking`. The Python code
scans `thought_history[:-1]` after appending the current thought, which is
exactly the pre-call history, passed here as `priorHistory`. -/
def buildInputPrompt (priorHistory : List ThoughtData) (t : ThoughtData) : String :=
  let base := "Process Thought #" ++ toString t.thoughtNumber ++ ":\n"
  let note :=
    match t.isRevision, t.revisesThought with
    | true, some n =>
        "**This is a REVISION of Thought #" ++ toString n ++ "** (Original: \"" ++
          findOriginalThoughtText priorHistory n ++ "\").\n"
    | _, _ =>
        match t.branchFromThought, t.branchId with
        | some n, some bid =>
            "**This is a BRANCH (ID: " ++ bid ++ ") from Thought #" ++ toString n ++
              "** (Origin: \"" ++ findBranchPointText priorHistory n ++ "\").\n"
        | _, _ => ""
  base ++ note ++ "\nThought Content: \"" ++ t.thought ++ "\""

/-- The `result_data` dict built by `sequentialthinking` on success
(`status` is always the literal "success" and is omitted). -/
structure ResultData where
  processedThoughtNumber : Int
  estimatedTotalThoughts : Int
  nextThoughtNeeded : Bool
  coordinatorResponse : String
  branches : List String
  thoughtHistoryLength : Nat
  currentBranchId : Option String
  branchOriginThought : Option Int
  allBranches : List (String × Nat)
  isRevision : Bool
  revisesThought : Option Int
  isBranch : Bool
deriving Repr, DecidableEq

/-- The three ways a `sequentialthinking` call can return: the
`except ValidationError` reply, the `except Exception` reply (delegate
fault), or the success reply carrying `result_data`. -/
inductive ToolOutcome where
  | validationError (msg : String)
  | internalError (msg : String)
  | success (rd : ResultData)
deriving Repr, DecidableEq

/-- The guidance text appended to the coordinator response, selected by the
derived `nextThoughtNeeded` as in `sequentialthinking`. -/
def additionalGuidance (adjustedNextThoughtNeeded : Bool) : String :=
  if adjustedNextThoughtNeeded = false then
    "\n\nThis is the final thought. Review the Coordinator's final synthesis."
  else
    "\n\nGuidance for next step:" ++
      "\n- **Revision/Branching:** Look for 'RECOMMENDATION: Revise thought #X...' or 'SUGGESTION: Consider branching...' in the response." ++
      " Use `isRevision=True`/`revisesThought=X` for revisions or `branchFromThought=Y`/`branchId='...'` for branching accordingly." ++
      "\n- **Next Thought:** Based on the Coordinator's response, formulate the next logical thought, addressing any points raised."

/-- The `adjusted_next_thought_needed` computation in `sequentialthinking`:
the caller's flag, forced to `False` when `thoughtNumber` has reached the
(already clamped) `totalThoughts` and `needsMoreThoughts` is not set. -/
def adjusted_next_thought_needed (t : ThoughtData) : Bool :=
  if t.totalThoughts ≤ t.thoughtNumber ∧ t.needsMoreThoughts = false then false
  else t.nextThoughtNeeded

/-- The `result_data` dict as assembled in `sequentialthinking`, for the
post-append context `ctx'` and the validated thought `t`. -/
def buildResultData (ctx' : AppContext) (t : ThoughtData)
    (coordinator_response : String) : ResultData :=
  { processedThoughtNumber := t.thoughtNumber
    estimatedTotalThoughts := t.totalThoughts
    nextThoughtNeeded := adjusted_next_thought_needed t
    coordinatorResponse :=
      coordinator_response ++ additionalGuidance (adjusted_next_thought_needed t)
    branches := ctx'.branches.map Prod.fst
    thoughtHistoryLength := ctx'.thought_history.length
    currentBranchId :=
      if t.branchFromThought.isSome then t.branchId else some "main"
    branchOriginThought := t.branchFromThought
    allBranches := ctx'.get_all_branches
    isRevision := t.isRevision
    revisesThought := if t.isRevision then t.revisesThought else none
    isBranch := t.branchFromThought.isSome }

/-- The body of the `sequentialthinking` tool in `main.py`, with the team
(`app_context.team.arun`) abstracted as `delegate : prompt → Except fault
response`. Validation failure returns before any state change; on success
the validated thought is appended (history and branch index) BEFORE the
delegate runs, so a delegate fault leaves the appended state in place. -/
def sequentialthinking (ctx : AppContext) (raw : RawInput)
    (delegate : String → Except String String) : AppContext × ToolOutcome :=
  match validateThoughtData raw with
  | Except.error msg => (ctx, ToolOutcome.validationError ("Input validation failed: " ++ msg))
  | Except.ok t =>
      let ctx' := ctx.add_thought t
      let input_prompt := buildInputPrompt ctx.thought_history t
      match delegate input_prompt with
      | Except.error e =>
          (ctx', ToolOutcome.internalError ("An unexpected error occurred: " ++ e))
      | Except.ok coordinator_response =>
          (ctx', ToolOutcome.success (buildResultData ctx' t coordinator_response))

/-- The bucket stored for a key in the branch index (first entry wins,
matching `dict` lookup; `[]` when the key is absent). -/
def bucketOf (bs : List (String × List ThoughtData)) (bid : String) : List ThoughtData :=
  match bs.find? (fun p => p.fst = bid) with
  | some p => p.snd
  | none => []

/-- A `ThoughtData` the Step Validator can actually produce: the image of
some accepted raw submission. -/
def AcceptedStep (t : ThoughtData) : Prop :=
  ∃ raw, validateThoughtData raw = Except.ok t

/-- Internal consistency of the Ledger: branch keys are distinct, every
bucket lists exactly the history entries carrying its key (in history
order), and every history entry with a branch id has a bucket. -/
def branchesWF (ctx : AppContext) : Prop :=
  (ctx.branches.map Prod.fst).Nodup ∧
  (∀ p ∈ ctx.branches,
      p.snd = ctx.thought_history.filter (fun u => u.branchId = some p.fst)) ∧
  (∀ u ∈ ctx.thought_history, ∀ bid, u.branchId = some bid →
      bid ∈ ctx.branches.map Prod.fst)

/-- Whether an outcome is the `ValidationError` reply. -/
def isValidationErrorOutcome : ToolOutcome → Bool
  | ToolOutcome.validationError _ => true
  | _ => false

/-- Whether an outcome is the `InternalError` (delegate fault) reply. -/
def isInternalErrorOutcome : ToolOutcome → Bool
  | ToolOutcome.internalError _ => true
  | _ => false

/-! ### Concrete instances used to instantiate the theorems -/

/-- A delegate that always answers. -/
def okDelegate : String → Except String String := fun _ => Except.ok "OK"

/-- A delegate that always raises. -/
def errDelegate : String → Except String String := fun _ => Except.error "team failure"

/-- A submission with `isRevision = true` and `revisesThought` absent. -/
def c1_input : RawInput :=
  { thought := "Revise the approach."
    thoughtNumber := 2
    totalThoughts := 5
    nextThoughtNeeded := true
    isRevision := true
    revisesThought := none }

/-- A submission with `branchFromThought` set and `branchId` absent. -/
def c2_input : RawInput :=
  { thought := "Explore an alternative."
    thoughtNumber := 2
    totalThoughts := 5
    nextThoughtNeeded := true
    branchFromThought := some 1
    branchId := none }

/-- First submission reusing sequence number 1. -/
def c3_raw1 : RawInput :=
  { thought := "Original A", thoughtNumber := 1, totalThoughts := 5, nextThoughtNeeded := true }

/-- Second submission reusing sequence number 1 (accepted later). -/
def c3_raw2 : RawInput :=
  { thought := "Original B", thoughtNumber := 1, totalThoughts := 5, nextThoughtNeeded := true }

/-- A revision referencing the reused sequence number 1. -/
def c3_raw3 : RawInput :=
  { thought := "Revised take."
    thoughtNumber := 2
    totalThoughts := 5
    nextThoughtNeeded := true
    isRevision := true
    revisesThought := some 1 }

/-- The Ledger after accepting `c3_raw1` then `c3_raw2`. -/
def c3_ctx2 : AppContext :=
  (sequentialthinking (sequentialthinking ⟨[], []⟩ c3_raw1 okDelegate).fst c3_raw2 okDelegate).fst

/-- A plainly valid submission, baseline for varying `totalThoughts`. -/
def c4_base : RawInput :=
  { thought := "Plan the analysis.", thoughtNumber := 1, totalThoughts := 5, nextThoughtNeeded := true }

/-- `c4_base` with `totalThoughts = 3` (below the minimum horizon). -/
def c4_small : RawInput := { c4_base with totalThoughts := 3 }

/-- A final-step submission: `thoughtNumber = totalThoughts`, extension not
requested, caller still asking to continue. -/
def c5_raw : RawInput :=
  { thought := "Synthesize the final answer."
    thoughtNumber := 5
    totalThoughts := 5
    nextThoughtNeeded := true }

/-- The post-append context of the `c5_raw` call from an empty Ledger. -/
def c5_ctx1 : AppContext := ⟨[mkThoughtData c5_raw], []⟩

/-- The `result_data` of the `c5_raw` call from an empty Ledger. -/
def c5_rd : ResultData := buildResultData c5_ctx1 (mkThoughtData c5_raw) "OK"

/-- A revision whose target equals its own sequence number. -/
def c6_input : RawInput :=
  { thought := "Revise step three."
    thoughtNumber := 3
    totalThoughts := 5
    nextThoughtNeeded := true
    isRevision := true
    revisesThought := some 3 }

/-- A rejected submission: `branchId` set without `branchFromThought`. -/
def c7_input : RawInput :=
  { thought := "Branch without origin."
    thoughtNumber := 2
    totalThoughts := 5
    nextThoughtNeeded := true
    branchId := some "stray" }

/-- A valid submission used to exercise the delegate-failure path. -/
def c8_input : RawInput :=
  { thought := "A step that will be recorded."
    thoughtNumber := 1
    totalThoughts := 5
    nextThoughtNeeded := true }

/-- First branch submission on branch `b1`. -/
def c9_raw1 : RawInput :=
  { thought := "Branch step one."
    thoughtNumber := 2
    totalThoughts := 5
    nextThoughtNeeded := true
    branchFromThought := some 1
    branchId := some "b1" }

/-- Second branch submission on branch `b1`. -/
def c9_raw2 : RawInput :=
  { thought := "Branch step two."
    thoughtNumber := 3
    totalThoughts := 5
    nextThoughtNeeded := true
    branchFromThought := some 1
    branchId := some "b1" }

/-- The accepted Steps of `c9_raw1` and `c9_raw2`. -/
def c9_s1 : ThoughtData := mkThoughtData c9_raw1

/-- See `c9_s1`. -/
def c9_s2 : ThoughtData := mkThoughtData c9_raw2

/-- A submission whose `revisesThought` is zero. -/
def c10_input : RawInput :=
  { thought := "Revise a nonexistent step."
    thoughtNumber := 2
    totalThoughts := 5
    nextThoughtNeeded := true
    isRevision := true
    revisesThought := some 0 }

/-! ## Helper lemmas about the validator -/

lemma validate_total_thoughts_minimum_eq_max (v : Int) :
    ThoughtData.validate_total_thoughts_minimum v = max 5 v := by
  unfold ThoughtData.validate_total_thoughts_minimum ThoughtData.MIN_TOTAL_THOUGHTS
  split <;> omega

/-- On acceptance, the constructed record is exactly `mkThoughtData raw`. -/
lemma validate_ok_eq (raw : RawInput) (t : ThoughtData)
    (h : validateThoughtData raw = Except.ok t) : t = mkThoughtData raw := by
  unfold validateThoughtData checkRevisionFields checkBranchFields at h
  repeat' split at h
  all_goals simp_all

lemma isAccepted_checkBranchFields (raw : RawInput) :
    isAccepted (checkBranchFields raw) = true ↔
      (∀ v, raw.branchFromThought = some v → 1 ≤ v ∧ v < raw.thoughtNumber) ∧
      (raw.branchFromThought = none → raw.branchId = none) := by
  rcases hbf : raw.branchFromThought with _ | v
  · rcases hbid : raw.branchId with _ | b
    · simp [checkBranchFields, hbf, hbid, isAccepted]
    · simp [checkBranchFields, hbf, hbid, isAccepted]
  · simp only [checkBranchFields, hbf]
    split_ifs with h1 h2
    · simp only [isAccepted]
      constructor
      · intro h; cases h
      · rintro ⟨h, -⟩
        exact absurd (h v rfl).1 (by omega)
    · simp only [isAccepted]
      constructor
      · intro h; cases h
      · rintro ⟨h, -⟩
        exact absurd (h v rfl).2 (by omega)
    · simp only [isAccepted, true_iff]
      constructor
      · rintro w hw
        cases hw
        exact ⟨by omega, by omega⟩
      · intro h; cases h

lemma isAccepted_checkRevisionFields (raw : RawInput) :
    isAccepted (checkRevisionFields raw) = true ↔
      (∀ v, raw.revisesThought = some v →
        1 ≤ v ∧ raw.isRevision = true ∧ v < raw.thoughtNumber) ∧
      (∀ v, raw.branchFromThought = some v → 1 ≤ v ∧ v < raw.thoughtNumber) ∧
      (raw.branchFromThought = none → raw.branchId = none) := by
  rcases hrv : raw.revisesThought with _ | v
  · simp only [checkRevisionFields, hrv]
    rw [isAccepted_checkBranchFields]
    simp
  · simp only [checkRevisionFields, hrv]
    split_ifs with h1 h2 h3
    · simp only [isAccepted]
      constructor
      · intro h; cases h
      · rintro ⟨h, -, -⟩
        exact absurd (h v rfl).1 (by omega)
    · simp only [isAccepted]
      constructor
      · intro h; cases h
      · rintro ⟨h, -, -⟩
        exact absurd (h v rfl).2.1 (by simp [h2])
    · simp only [isAccepted]
      constructor
      · intro h; cases h
      · rintro ⟨h, -, -⟩
        exact absurd (h v rfl).2.2 (by omega)
    · rw [isAccepted_checkBranchFields]
      constructor
      · rintro ⟨hb, hn⟩
        refine ⟨?_, hb, hn⟩
        rintro w hw
        cases hw
        refine ⟨by omega, ?_, by omega⟩
        cases hir : raw.isRevision
        · exact absurd hir h2
        · rfl
      · rintro ⟨-, hb, hn⟩
        exact ⟨hb, hn⟩

/-- Full characterization of acceptance by the validator. -/
lemma isAccepted_iff (raw : RawInput) :
    isAccepted (validateThoughtData raw) = true ↔
      1 ≤ raw.thought.length ∧ 1 ≤ raw.thoughtNumber ∧ 1 ≤ raw.totalThoughts ∧
      (∀ v, raw.revisesThought = some v →
        1 ≤ v ∧ raw.isRevision = true ∧ v < raw.thoughtNumber) ∧
      (∀ v, raw.branchFromThought = some v → 1 ≤ v ∧ v < raw.thoughtNumber) ∧
      (raw.branchFromThought = none → raw.branchId = none) := by
  unfold validateThoughtData
  split_ifs with h1 h2 h3
  · simp only [isAccepted]
    constructor
    · intro h; cases h
    · rintro ⟨h, -⟩; omega
  · simp only [isAccepted]
    constructor
    · intro h; cases h
    · rintro ⟨-, h, -⟩; omega
  · simp only [isAccepted]
    constructor
    · intro h; cases h
    · rintro ⟨-, -, h, -⟩; omega
  · rw [isAccepted_checkRevisionFields]
    constructor
    · rintro ⟨ha, hb, hc⟩
      exact ⟨by omega, by omega, by omega, ha, hb, hc⟩
    · rintro ⟨-, -, -, ha, hb, hc⟩
      exact ⟨ha, hb, hc⟩

/-! ## Helper lemmas about the Ledger -/

lemma add_thought_history (ctx : AppContext) (t : ThoughtData) :
    (ctx.add_thought t).thought_history = ctx.thought_history ++ [t] := by
  rcases h1 : t.branchFromThought with _ | v <;> rcases h2 : t.branchId with _ | b <;>
    simp [AppContext.add_thought, h1, h2]

lemma get_branch_thoughts_eq_bucketOf (ctx : AppContext) (bid : String) :
    ctx.get_branch_thoughts bid = bucketOf ctx.branches bid := rfl

lemma bucketOf_eq_nil (bs : List (String × List ThoughtData)) (bid : String)
    (h : bid ∉ bs.map Prod.fst) : bucketOf bs bid = [] := by
  unfold bucketOf
  rw [List.find?_eq_none.mpr]
  intro q hq
  simp only [decide_eq_true_eq]
  intro he
  exact h (he ▸ List.mem_map_of_mem Prod.fst hq)

lemma bucketOf_eq_of_mem (bs : List (String × List ThoughtData))
    (q : String × List ThoughtData) (hnd : (bs.map Prod.fst).Nodup) (hq : q ∈ bs) :
    bucketOf bs q.fst = q.snd := by
  induction bs with
  | nil => cases hq
  | cons p rest ih =>
      rcases List.mem_cons.mp hq with h1 | h2
      · subst h1
        simp [bucketOf, List.find?_cons_of_pos]
      · have hne : p.fst ≠ q.fst := by
          intro he
          have hmem : q.fst ∈ rest.map Prod.fst := List.mem_map_of_mem Prod.fst h2
          rw [← he] at hmem
          exact (List.nodup_cons.mp hnd).1 hmem
        have hstep : bucketOf (p :: rest) q.fst = bucketOf rest q.fst := by
          unfold bucketOf
          rw [List.find?_cons_of_neg]
          simp [hne]
        rw [hstep]
        exact ih (List.nodup_cons.mp hnd).2 h2

lemma appendToBranches_keys_mem (bs : List (String × List ThoughtData))
    (bid : String) (t : ThoughtData) (h : bid ∈ bs.map Prod.fst) :
    (appendToBranches bs bid t).map Prod.fst = bs.map Prod.fst := by
  induction bs with
  | nil => simp at h
  | cons p rest ih =>
      obtain ⟨k, ts⟩ := p
      by_cases hk : k = bid
      · subst hk
        simp [appendToBranches]
      · simp only [List.map_cons, List.mem_cons] at h
        rcases h with h1 | h2
        · exact absurd h1.symm hk
        · simp [appendToBranches, hk, ih h2]

lemma appendToBranches_keys_not_mem (bs : List (String × List ThoughtData))
    (bid : String) (t : ThoughtData) (h : bid ∉ bs.map Prod.fst) :
    (appendToBranches bs bid t).map Prod.fst = bs.map Prod.fst ++ [bid] := by
  induction bs with
  | nil => simp [appendToBranches]
  | cons p rest ih =>
      obtain ⟨k, ts⟩ := p
      simp only [List.map_cons, List.mem_cons] at h
      push_neg at h
      by_cases hk : k = bid
      · exact absurd hk.symm h.1
      · simp [appendToBranches, hk, ih h.2]

lemma appendToBranches_nodup (bs : List (String × List ThoughtData))
    (bid : String) (t : ThoughtData) (hnd : (bs.map Prod.fst).Nodup) :
    ((appendToBranches bs bid t).map Prod.fst).Nodup := by
  by_cases hmem : bid ∈ bs.map Prod.fst
  · rw [appendToBranches_keys_mem bs bid t hmem]
    exact hnd
  · rw [appendToBranches_keys_not_mem bs bid t hmem]
    simp [List.nodup_append, hnd, hmem]

lemma appendToBranches_mem (bs : List (String × List ThoughtData))
    (bid : String) (t : ThoughtData) (hnd : (bs.map Prod.fst).Nodup)
    (p : String × List ThoughtData) (hp : p ∈ appendToBranches bs bid t) :
    (p.fst = bid ∧ p.snd = bucketOf bs bid ++ [t]) ∨ (p.fst ≠ bid ∧ p ∈ bs) := by
  induction bs with
  | nil =>
      simp only [appendToBranches, List.mem_singleton] at hp
      subst hp
      left
      exact ⟨rfl, by simp [bucketOf]⟩
  | cons q rest ih =>
      obtain ⟨k, ts⟩ := q
      by_cases hk : k = bid
      · subst hk
        simp only [appendToBranches, if_pos rfl] at hp
        rcases List.mem_cons.mp hp with h1 | h2
        · left
          subst h1
          refine ⟨rfl, ?_⟩
          simp [bucketOf, List.find?_cons_of_pos]
        · right
          refine ⟨?_, List.mem_cons_of_mem _ h2⟩
          intro hfst
          have hmem : p.fst ∈ rest.map Prod.fst := List.mem_map_of_mem Prod.fst h2
          rw [hfst] at hmem
          exact (List.nodup_cons.mp hnd).1 hmem
      · simp only [appendToBranches, if_neg hk] at hp
        rcases List.mem_cons.mp hp with h1 | h2
        · right
          subst h1
          exact ⟨hk, List.mem_cons_self _ _⟩
        · have hstep : bucketOf ((k, ts) :: rest) bid = bucketOf rest bid := by
            unfold bucketOf
            rw [List.find?_cons_of_neg]
            simp [hk]
          rcases ih (List.nodup_cons.mp hnd).2 h2 with ⟨hfst, hsnd⟩ | ⟨hfst, hmem⟩
          · left
            exact ⟨hfst, by rw [hsnd, hstep]⟩
          · right
            exact ⟨hfst, List.mem_cons_of_mem _ hmem⟩

lemma AcceptedStep.branch_wf {t : ThoughtData} (h : AcceptedStep t) :
    t.branchId.isSome = true → t.branchFromThought.isSome = true := by
  rcases h with ⟨raw, hraw⟩
  have ht : t = mkThoughtData raw := validate_ok_eq raw t hraw
  have hacc : isAccepted (validateThoughtData raw) = true := by
    rw [hraw]; rfl
  rw [isAccepted_iff] at hacc
  obtain ⟨-, -, -, -, -, hb⟩ := hacc
  subst ht
  intro hbid
  rcases hbf : raw.branchFromThought with _ | v
  · have hnone := hb hbf
    simp [mkThoughtData, hnone] at hbid
  · simp [mkThoughtData, hbf]

lemma branchesWF_empty : branchesWF ⟨[], []⟩ := by
  refine ⟨List.nodup_nil, ?_, ?_⟩
  · intro p hp; cases hp
  · intro u hu; cases hu

lemma branchesWF_add_thought (ctx : AppContext) (t : ThoughtData)
    (hwf : branchesWF ctx)
    (ht : t.branchId.isSome = true → t.branchFromThought.isSome = true) :
    branchesWF (ctx.add_thought t) := by
  obtain ⟨hnd, hbuckets, hcover⟩ := hwf
  rcases hbid : t.branchId with _ | bid
  · -- no branch id: history grows, branch index untouched
    have hct : ctx.add_thought t =
        ⟨ctx.thought_history ++ [t], ctx.branches⟩ := by
      unfold AppContext.add_thought
      rcases hbf : t.branchFromThought with _ | v <;> simp [hbid, hbf]
    rw [hct]
    refine ⟨hnd, ?_, ?_⟩
    · intro p hp
      rw [hbuckets p hp, List.filter_append]
      simp [hbid]
    · intro u hu bid' hbid'
      rcases List.mem_append.mp hu with h1 | h2
      · exact hcover u h1 bid' hbid'
      · simp only [List.mem_singleton] at h2
        subst h2
        rw [hbid] at hbid'
        cases hbid'
  · -- branch id present: by validation, an origin is present too
    have hbfsome : t.branchFromThought.isSome = true := ht (by simp [hbid])
    rcases hbf : t.branchFromThought with _ | v
    · rw [hbf] at hbfsome; cases hbfsome
    · have hct : ctx.add_thought t =
          ⟨ctx.thought_history ++ [t], appendToBranches ctx.branches bid t⟩ := by
        unfold AppContext.add_thought
        simp [hbf, hbid]
      rw [hct]
      refine ⟨appendToBranches_nodup ctx.branches bid t hnd, ?_, ?_⟩
      · intro p hp
        rcases appendToBranches_mem ctx.branches bid t hnd p hp with
          ⟨hfst, hsnd⟩ | ⟨hfst, hmem⟩
        · rw [hsnd, hfst, List.filter_append]
          congr 1
          · -- the old bucket for `bid` is the old history filtered at `bid`
            by_cases hmem2 : bid ∈ ctx.branches.map Prod.fst
            · obtain ⟨q, hq, hqfst⟩ := List.mem_map.mp hmem2
              rw [← hqfst, bucketOf_eq_of_mem ctx.branches q hnd hq]
              rw [hbuckets q hq]
            · rw [bucketOf_eq_nil ctx.branches bid hmem2]
              rw [eq_comm, List.filter_eq_nil_iff]
              intro u hu
              simp only [decide_eq_true_eq]
              intro he
              exact hmem2 (hcover u hu bid he)
          · simp [hbid]
        · rw [hbuckets p hmem, List.filter_append]
          have : t.branchId ≠ some p.fst := by
            rw [hbid]
            intro he
            exact hfst (by injection he with h; exact h.symm)
          simp [this]
      · intro u hu bid' hbid'
        rcases List.mem_append.mp hu with h1 | h2
        · have hold := hcover u h1 bid' hbid'
          by_cases hmem2 : bid ∈ ctx.branches.map Prod.fst
          · rw [appendToBranches_keys_mem ctx.branches bid t hmem2]
            exact hold
          · rw [appendToBranches_keys_not_mem ctx.branches bid t hmem2]
            exact List.mem_append_left _ hold
        · simp only [List.mem_singleton] at h2
          rw [h2, hbid] at hbid'
          injection hbid' with h
          subst h
          by_cases hmem2 : bid ∈ ctx.branches.map Prod.fst
          · rw [appendToBranches_keys_mem ctx.branches bid t hmem2]
            exact hmem2
          · rw [appendToBranches_keys_not_mem ctx.branches bid t hmem2]
            simp

lemma branchesWF_foldl (steps : List ThoughtData) (ctx : AppContext)
    (hwf : branchesWF ctx) (h : ∀ t ∈ steps, AcceptedStep t) :
    branchesWF (steps.foldl AppContext.add_thought ctx) := by
  induction steps generalizing ctx with
  | nil => exact hwf
  | cons s rest ih =>
      simp only [List.foldl_cons]
      refine ih (ctx.add_thought s) ?_ ?_
      · exact branchesWF_add_thought ctx s hwf
          ((h s (List.mem_cons_self s rest)).branch_wf)
      · intro t htm
        exact h t (List.mem_cons_of_mem s htm)

/-! ## Helper lemmas about the tool flow -/

lemma sequentialthinking_validation_error (ctx : AppContext) (raw : RawInput)
    (delegate : String → Except String String) (msg : String)
    (hv : validateThoughtData raw = Except.error msg) :
    sequentialthinking ctx raw delegate =
      (ctx, ToolOutcome.validationError ("Input validation failed: " ++ msg)) := by
  unfold sequentialthinking
  rw [hv]

lemma sequentialthinking_delegate_error (ctx : AppContext) (raw : RawInput)
    (delegate : String → Except String String) (t : ThoughtData) (e : String)
    (hv : validateThoughtData raw = Except.ok t)
    (hd : delegate (buildInputPrompt ctx.thought_history t) = Except.error e) :
    sequentialthinking ctx raw delegate =
      (ctx.add_thought t,
        ToolOutcome.internalError ("An unexpected error occurred: " ++ e)) := by
  unfold sequentialthinking
  rw [hv]
  simp only [hd]

lemma sequentialthinking_ok (ctx : AppContext) (raw : RawInput)
    (delegate : String → Except String String) (t : ThoughtData) (resp : String)
    (hv : validateThoughtData raw = Except.ok t)
    (hd : delegate (buildInputPrompt ctx.thought_history t) = Except.ok resp) :
    sequentialthinking ctx raw delegate =
      (ctx.add_thought t,
        ToolOutcome.success (buildResultData (ctx.add_thought t) t resp)) := by
  unfold sequentialthinking
  rw [hv]
  simp only [hd]

/-- A successful call determines its pieces: the validated thought, the
delegate response, the new context and the `result_data`. -/
lemma sequentialthinking_success_inv (ctx : AppContext) (raw : RawInput)
    (delegate : String → Except String String) (ctx' : AppContext) (rd : ResultData)
    (h : sequentialthinking ctx raw delegate = (ctx', ToolOutcome.success rd)) :
    ∃ t resp, validateThoughtData raw = Except.ok t ∧
      delegate (buildInputPrompt ctx.thought_history t) = Except.ok resp ∧
      ctx' = ctx.add_thought t ∧ rd = buildResultData (ctx.add_thought t) t resp := by
  rcases hv : validateThoughtData raw with msg | t
  · rw [sequentialthinking_validation_error ctx raw delegate msg hv] at h
    simp at h
  · rcases hd : delegate (buildInputPrompt ctx.thought_history t) with e | resp
    · rw [sequentialthinking_delegate_error ctx raw delegate t e hv hd] at h
      simp at h
    · rw [sequentialthinking_ok ctx raw delegate t resp hv hd] at h
      simp only [Prod.mk.injEq, ToolOutcome.success.injEq] at h
      exact ⟨t, resp, rfl, by rw [hd], h.1.symm, h.2.symm⟩

/-! ## From the invariant to the Ledger queries -/

lemma branchesWF_get_branch_thoughts (ctx : AppContext) (hwf : branchesWF ctx)
    (bid : String) :
    ctx.get_branch_thoughts bid =
      ctx.thought_history.filter (fun u => u.branchId = some bid) := by
  obtain ⟨hnd, hbuckets, hcover⟩ := hwf
  rw [get_branch_thoughts_eq_bucketOf]
  by_cases hmem : bid ∈ ctx.branches.map Prod.fst
  · obtain ⟨q, hq, hqfst⟩ := List.mem_map.mp hmem
    rw [← hqfst, bucketOf_eq_of_mem ctx.branches q hnd hq, hbuckets q hq]
  · rw [bucketOf_eq_nil ctx.branches bid hmem, eq_comm, List.filter_eq_nil_iff]
    intro u hu
    simp only [decide_eq_true_eq]
    intro he
    exact hmem (hcover u hu bid he)

lemma branchesWF_counts (ctx : AppContext) (hwf : branchesWF ctx)
    (bid : String) (n : Nat) (h : (bid, n) ∈ ctx.get_all_branches) :
    n = (ctx.thought_history.filter (fun u => u.branchId = some bid)).length := by
  obtain ⟨-, hbuckets, -⟩ := hwf
  unfold AppContext.get_all_branches at h
  obtain ⟨q, hq, hqe⟩ := List.mem_map.mp h
  injection hqe with h1 h2
  rw [← h2, hbuckets q hq, h1]

/-! ## Claims -/

/-- C1: the claim states that a submission with `isRevision = true` and
`revisesThought` absent is rejected. The code ACCEPTS it: no validator in
`models.py` checks this direction, so the concrete submission `c1_input`
(isRevision true, revisesThought none) validates successfully — contrary to
the claim and to the field's own documentation ("required if isRevision is
True"). -/
theorem c1_revision_without_target_is_accepted :
    validateThoughtData c1_input = Except.ok (mkThoughtData c1_input) ∧
    c1_input.isRevision = true ∧
    c1_input.revisesThought = none ∧
    (mkThoughtData c1_input).isRevision = true ∧
    (mkThoughtData c1_input).revisesThought = none :=
  ⟨rfl, rfl, rfl, rfl, rfl⟩

/-- C2: the claim states that `branchFromThought` set while `branchId` is
absent is rejected. The code ACCEPTS it (`validate_branch_id` only checks
the converse direction), and `add_thought` then records the step in history
but in no branch bucket. -/
theorem c2_branch_without_id_is_accepted :
    validateThoughtData c2_input = Except.ok (mkThoughtData c2_input) ∧
    c2_input.branchFromThought = some 1 ∧
    c2_input.branchId = none ∧
    (AppContext.add_thought ⟨[], []⟩ (mkThoughtData c2_input)).thought_history =
      [mkThoughtData c2_input] ∧
    (AppContext.add_thought ⟨[], []⟩ (mkThoughtData c2_input)).branches = [] :=
  ⟨rfl, rfl, rfl, rfl, rfl⟩

/-- C3 (counterexample): after accepting two steps that both carry sequence
number 1 ("Original A" first, "Original B" second), a revision referencing
sequence number 1 recovers "Original A" — the EARLIEST match — while the
claim says the MOST RECENT previously accepted step ("Original B") is
used. -/
theorem c3_counterexample_first_writer_wins :
    validateThoughtData c3_raw3 = Except.ok (mkThoughtData c3_raw3) ∧
    (mkThoughtData c3_raw3).isRevision = true ∧
    (mkThoughtData c3_raw3).revisesThought = some 1 ∧
    c3_ctx2.thought_history.map (fun u => (u.thoughtNumber, u.thought)) =
      [((1 : Int), "Original A"), ((1 : Int), "Original B")] ∧
    buildInputPrompt c3_ctx2.thought_history (mkThoughtData c3_raw3) =
      "Process Thought #2:\n**This is a REVISION of Thought #1** (Original: \"Original A\").\n\nThought Content: \"Revised take.\"" ∧
    "Original A" ≠ "Original B" :=
  ⟨rfl, rfl, rfl, rfl, rfl, by decide⟩

/-- C3 (amended): for a revision AND for a branch step alike, the original
text recovered from history for the referenced sequence number is that of
the EARLIEST previously accepted Step carrying that sequence number
(first-writer-wins when the same sequence number was reused — both lookup
loops scan front to back and stop at the first match); if none exists, the
"Unknown Original Thought" (revision) or "Unknown Branch Point" (branch)
placeholder is used. -/
theorem c3_amended_earliest_match (hist : List ThoughtData) (n : Int) :
    ((∀ u ∈ hist, u.thoughtNumber ≠ n) →
        findOriginalThoughtText hist n = "Unknown Original Thought" ∧
        findBranchPointText hist n = "Unknown Branch Point") ∧
    (∀ pre t post, hist = pre ++ t :: post → t.thoughtNumber = n →
        (∀ u ∈ pre, u.thoughtNumber ≠ n) →
        findOriginalThoughtText hist n = t.thought ∧
        findBranchPointText hist n = t.thought) := by
  constructor
  · intro h
    induction hist with
    | nil => exact ⟨rfl, rfl⟩
    | cons a rest ih =>
        have ha : a.thoughtNumber ≠ n := h a (List.mem_cons_self a rest)
        have hrest := ih (fun u hu => h u (List.mem_cons_of_mem a hu))
        constructor
        · simp only [findOriginalThoughtText, if_neg ha]
          exact hrest.1
        · simp only [findBranchPointText, if_neg ha]
          exact hrest.2
  · intro pre t post hsplit ht hpre
    subst hsplit
    induction pre with
    | nil =>
        constructor
        · simp [findOriginalThoughtText, ht]
        · simp [findBranchPointText, ht]
    | cons a rest ih =>
        have ha : a.thoughtNumber ≠ n := hpre a (List.mem_cons_self a rest)
        have hrest := ih (fun u hu => hpre u (List.mem_cons_of_mem a hu))
        constructor
        · simp only [List.cons_append, findOriginalThoughtText, if_neg ha]
          exact hrest.1
        · simp only [List.cons_append, findBranchPointText, if_neg ha]
          exact hrest.2

/-- Witness for C3 (amended), at the concrete two-step history of the
counterexample scenario: both the revision lookup and the branch-origin
lookup recover the earliest step numbered 1. -/
theorem c3_amended_witness :
    findOriginalThoughtText c3_ctx2.thought_history 1 = "Original A" ∧
    findBranchPointText c3_ctx2.thought_history 1 = "Original A" :=
  (c3_amended_earliest_match c3_ctx2.thought_history 1).2 []
    (mkThoughtData c3_raw1) [mkThoughtData c3_raw2] rfl rfl
    (fun u hu => absurd hu (List.not_mem_nil u))

/-- C4 (counterexample): a submission differing from an accepted one only in
`totalThoughts = 0` is REJECTED by the `ge=1` field constraint, while the
claim says validation never rejects on this field for any integer input
(it would predict acceptance with `estimatedTotal = max(5, 0) = 5`). -/
theorem c4_counterexample_totalThoughts_zero_rejected :
    isAccepted (validateThoughtData c4_base) = true ∧
    isAccepted (validateThoughtData { c4_base with totalThoughts := 0 }) = false ∧
    validateThoughtData { c4_base with totalThoughts := 0 } =
      Except.error "totalThoughts must be greater than or equal to 1" :=
  ⟨rfl, rfl, rfl⟩

/-- C4 (amended): for every ACCEPTED submission the Step's `totalThoughts`
is `max(5, input totalThoughts)`; for inputs `totalThoughts ≥ 1` the field
never decides acceptance (clamping, not rejection), but inputs below 1 are
rejected by the `ge=1` field constraint. -/
theorem c4_amended_clamp_for_positive_inputs (raw : RawInput) :
    (∀ t, validateThoughtData raw = Except.ok t →
        t.totalThoughts = max 5 raw.totalThoughts) ∧
    (∀ v w : Int, 1 ≤ v → 1 ≤ w →
        isAccepted (validateThoughtData { raw with totalThoughts := v }) =
          isAccepted (validateThoughtData { raw with totalThoughts := w })) ∧
    (raw.totalThoughts < 1 → isAccepted (validateThoughtData raw) = false) := by
  refine ⟨?_, ?_, ?_⟩
  · intro t ht
    rw [validate_ok_eq raw t ht]
    simp [mkThoughtData, validate_total_thoughts_minimum_eq_max]
  · intro v w hv hw
    have hiff :
        isAccepted (validateThoughtData { raw with totalThoughts := v }) = true ↔
        isAccepted (validateThoughtData { raw with totalThoughts := w }) = true := by
      rw [isAccepted_iff, isAccepted_iff]
      constructor
      · rintro ⟨h1, h2, -, h4, h5, h6⟩
        exact ⟨h1, h2, hw, h4, h5, h6⟩
      · rintro ⟨h1, h2, -, h4, h5, h6⟩
        exact ⟨h1, h2, hv, h4, h5, h6⟩
    rcases hA : isAccepted (validateThoughtData { raw with totalThoughts := v }) <;>
      rcases hB : isAccepted (validateThoughtData { raw with totalThoughts := w }) <;>
      simp_all
  · intro hlt
    rcases hA : isAccepted (validateThoughtData raw)
    · rfl
    · rw [isAccepted_iff] at hA
      obtain ⟨-, -, h3, -⟩ := hA
      omega

/-- Witness for C4 (amended): `totalThoughts = 3` is clamped to
`max 5 3 = 5`, and acceptance does not depend on the (positive) value of
the field. -/
theorem c4_amended_witness :
    validateThoughtData c4_small = Except.ok (mkThoughtData c4_small) ∧
    (mkThoughtData c4_small).totalThoughts = max 5 c4_small.totalThoughts ∧
    max 5 c4_small.totalThoughts = 5 ∧
    isAccepted (validateThoughtData { c4_base with totalThoughts := 3 }) =
      isAccepted (validateThoughtData { c4_base with totalThoughts := 9 }) :=
  ⟨rfl,
   (c4_amended_clamp_for_positive_inputs c4_small).1 (mkThoughtData c4_small) rfl,
   by decide,
   (c4_amended_clamp_for_positive_inputs c4_base).2.1 3 9 (by decide) (by decide)⟩

lemma adjusted_next_mk (raw : RawInput) :
    adjusted_next_thought_needed (mkThoughtData raw) =
      if max 5 raw.totalThoughts ≤ raw.thoughtNumber ∧ raw.needsMoreThoughts = false
      then false else raw.nextThoughtNeeded := by
  unfold adjusted_next_thought_needed mkThoughtData
  simp only [validate_total_thoughts_minimum_eq_max]

/-- C5: for every successful call, the returned `nextThoughtNeeded` is
forced to false exactly when `thoughtNumber ≥ max(5, input totalThoughts)`
(the post-clamp horizon) and `needsMoreThoughts` is false; in every other
case it equals the caller-supplied `nextThoughtNeeded`. -/
theorem c5_derived_continuation (ctx : AppContext) (raw : RawInput)
    (delegate : String → Except String String) (ctx' : AppContext)
    (rd : ResultData)
    (h : sequentialthinking ctx raw delegate = (ctx', ToolOutcome.success rd)) :
    ((max 5 raw.totalThoughts ≤ raw.thoughtNumber ∧ raw.needsMoreThoughts = false) →
        rd.nextThoughtNeeded = false) ∧
    (¬(max 5 raw.totalThoughts ≤ raw.thoughtNumber ∧ raw.needsMoreThoughts = false) →
        rd.nextThoughtNeeded = raw.nextThoughtNeeded) := by
  obtain ⟨t, resp, hv, hd, hctx, hrd⟩ :=
    sequentialthinking_success_inv ctx raw delegate ctx' rd h
  have ht : t = mkThoughtData raw := validate_ok_eq raw t hv
  subst ht
  subst hrd
  constructor
  · intro hc
    simp only [buildResultData, adjusted_next_mk, if_pos hc]
  · intro hc
    simp only [buildResultData, adjusted_next_mk, if_neg hc]

/-- Witness for C5: `thoughtNumber = 5`, `totalThoughts = 5`, caller-supplied
`nextThoughtNeeded = true`, `needsMoreThoughts = false` — the returned flag
is forced to false. -/
theorem c5_witness :
    sequentialthinking ⟨[], []⟩ c5_raw okDelegate =
      (c5_ctx1, ToolOutcome.success c5_rd) ∧
    c5_raw.nextThoughtNeeded = true ∧
    c5_rd.nextThoughtNeeded = false :=
  ⟨rfl, rfl,
   (c5_derived_continuation ⟨[], []⟩ c5_raw okDelegate c5_ctx1 c5_rd rfl).1
     (by decide)⟩

/-- C6: a submission with `revisesThought ≥ thoughtNumber` (the equal case
included) is rejected, and an accepted submission with `revisesThought`
present has it strictly less than its `thoughtNumber`. -/
theorem c6_revises_strictly_less (raw : RawInput) (v : Int)
    (hrv : raw.revisesThought = some v) :
    (raw.thoughtNumber ≤ v → isAccepted (validateThoughtData raw) = false) ∧
    (∀ t, validateThoughtData raw = Except.ok t → v < t.thoughtNumber) := by
  constructor
  · intro hle
    rcases hA : isAccepted (validateThoughtData raw)
    · rfl
    · rw [isAccepted_iff] at hA
      obtain ⟨-, -, -, h4, -⟩ := hA
      have hlt := (h4 v hrv).2.2
      omega
  · intro t ht
    have hA : isAccepted (validateThoughtData raw) = true := by
      rw [ht]; rfl
    rw [isAccepted_iff] at hA
    obtain ⟨-, -, -, h4, -⟩ := hA
    have hlt := (h4 v hrv).2.2
    rw [validate_ok_eq raw t ht]
    simpa [mkThoughtData] using hlt

/-- Witness for C6: `isRevision = true`, `revisesThought = 3`,
`thoughtNumber = 3` is rejected (not strictly less). -/
theorem c6_witness :
    c6_input.revisesThought = some 3 ∧
    c6_input.thoughtNumber = 3 ∧
    isAccepted (validateThoughtData c6_input) = false :=
  ⟨rfl, rfl, (c6_revises_strictly_less c6_input 3 rfl).1 (by decide)⟩

/-- C7: when validation fails, the call returns the validation-error reply
and the Ledger (history and branches) is exactly what it was before the
call — the append happens only after successful validation. -/
theorem c7_rejection_leaves_state_unchanged (ctx : AppContext) (raw : RawInput)
    (delegate : String → Except String String)
    (h : isAccepted (validateThoughtData raw) = false) :
    (sequentialthinking ctx raw delegate).fst = ctx ∧
    isValidationErrorOutcome (sequentialthinking ctx raw delegate).snd = true := by
  rcases hv : validateThoughtData raw with msg | t
  · rw [sequentialthinking_validation_error ctx raw delegate msg hv]
    exact ⟨rfl, rfl⟩
  · rw [hv] at h
    simp [isAccepted] at h

/-- Witness for C7: a rejected submission (`branchId` without
`branchFromThought`) leaves a one-step Ledger untouched. -/
theorem c7_witness :
    isAccepted (validateThoughtData c7_input) = false ∧
    (sequentialthinking ⟨[mkThoughtData c8_input], []⟩ c7_input okDelegate).fst =
      ⟨[mkThoughtData c8_input], []⟩ ∧
    isValidationErrorOutcome
      (sequentialthinking ⟨[mkThoughtData c8_input], []⟩ c7_input okDelegate).snd =
        true :=
  ⟨rfl,
   (c7_rejection_leaves_state_unchanged ⟨[mkThoughtData c8_input], []⟩ c7_input
     okDelegate rfl).1,
   (c7_rejection_leaves_state_unchanged ⟨[mkThoughtData c8_input], []⟩ c7_input
     okDelegate rfl).2⟩

/-- C8: append-then-delegate — for a step that passes validation, the step
is appended to the Ledger before the delegate runs, so a delegate fault
returns an error message while the step remains recorded (history one
longer than before the call). -/
theorem c8_append_before_delegate (ctx : AppContext) (raw : RawInput)
    (delegate : String → Except String String) (t : ThoughtData) (e : String)
    (hv : validateThoughtData raw = Except.ok t)
    (hd : delegate (buildInputPrompt ctx.thought_history t) = Except.error e) :
    (sequentialthinking ctx raw delegate).fst.thought_history =
      ctx.thought_history ++ [t] ∧
    (sequentialthinking ctx raw delegate).fst.thought_history.length =
      ctx.thought_history.length + 1 ∧
    (sequentialthinking ctx raw delegate).snd =
      ToolOutcome.internalError ("An unexpected error occurred: " ++ e) := by
  rw [sequentialthinking_delegate_error ctx raw delegate t e hv hd]
  refine ⟨add_thought_history ctx t, ?_, rfl⟩
  rw [add_thought_history ctx t]
  simp

/-- Witness for C8: a failing delegate still leaves the accepted step
recorded. -/
theorem c8_witness :
    validateThoughtData c8_input = Except.ok (mkThoughtData c8_input) ∧
    (sequentialthinking ⟨[], []⟩ c8_input errDelegate).fst.thought_history =
      [] ++ [mkThoughtData c8_input] ∧
    (sequentialthinking ⟨[], []⟩ c8_input errDelegate).snd =
      ToolOutcome.internalError ("An unexpected error occurred: " ++ "team failure") :=
  ⟨rfl,
   (c8_append_before_delegate ⟨[], []⟩ c8_input errDelegate
     (mkThoughtData c8_input) "team failure" rfl rfl).1,
   (c8_append_before_delegate ⟨[], []⟩ c8_input errDelegate
     (mkThoughtData c8_input) "team failure" rfl rfl).2.2⟩

/-- C9: starting from the empty Ledger and appending any sequence of
accepted Steps, every branch bucket of `branches` lists exactly the history
entries carrying its branch id, in the same relative order as `history`
(so each such Step appears exactly once, in its own bucket), and every
count reported by `get_all_branches` is the number of history entries
carrying that id. -/
theorem c9_branch_buckets (steps : List ThoughtData)
    (h : ∀ t ∈ steps, AcceptedStep t) :
    (∀ bid,
        (steps.foldl AppContext.add_thought ⟨[], []⟩).get_branch_thoughts bid =
          (steps.foldl AppContext.add_thought ⟨[], []⟩).thought_history.filter
            (fun u => u.branchId = some bid)) ∧
    (∀ bid n,
        (bid, n) ∈ (steps.foldl AppContext.add_thought ⟨[], []⟩).get_all_branches →
          n = ((steps.foldl AppContext.add_thought ⟨[], []⟩).thought_history.filter
            (fun u => u.branchId = some bid)).length) := by
  have hwf := branchesWF_foldl steps ⟨[], []⟩ branchesWF_empty h
  exact ⟨fun bid => branchesWF_get_branch_thoughts _ hwf bid,
         fun bid n hm => branchesWF_counts _ hwf bid n hm⟩

/-- Witness for C9: appending the two accepted `b1` Steps yields a `b1`
count of 2, with both Steps in the `b1` bucket in acceptance order. -/
theorem c9_witness :
    ([c9_s1, c9_s2].foldl AppContext.add_thought ⟨[], []⟩).get_branch_thoughts "b1" =
      ([c9_s1, c9_s2].foldl AppContext.add_thought ⟨[], []⟩).thought_history.filter
        (fun u => u.branchId = some "b1") ∧
    ("b1", 2) ∈ ([c9_s1, c9_s2].foldl AppContext.add_thought ⟨[], []⟩).get_all_branches ∧
    ([c9_s1, c9_s2].foldl AppContext.add_thought ⟨[], []⟩).get_branch_thoughts "b1" =
      [c9_s1, c9_s2] := by
  have h := c9_branch_buckets [c9_s1, c9_s2] (by
    intro t ht
    rcases List.mem_cons.mp ht with h1 | h2
    · exact ⟨c9_raw1, by rw [h1]; rfl⟩
    · rcases List.mem_cons.mp h2 with h3 | h4
      · exact ⟨c9_raw2, by rw [h3]; rfl⟩
      · cases h4)
  exact ⟨h.1 "b1", by decide, by decide⟩

/-- C10: a submission supplying `revisesThought` or `branchFromThought`
with a value below 1 (zero or negative) is rejected by the `ge=1` field
constraints, independently of the backward-reference rules. -/
theorem c10_positive_references (raw : RawInput) (v : Int) (hv : v < 1)
    (h : raw.revisesThought = some v ∨ raw.branchFromThought = some v) :
    isAccepted (validateThoughtData raw) = false := by
  rcases hA : isAccepted (validateThoughtData raw)
  · rfl
  · rw [isAccepted_iff] at hA
    obtain ⟨-, -, -, h4, h5, -⟩ := hA
    rcases h with h | h
    · have h1 := (h4 v h).1
      omega
    · have h1 := (h5 v h).1
      omega

/-- Witness for C10: `revisesThought = 0` is rejected. -/
theorem c10_witness :
    c10_input.revisesThought = some 0 ∧
    isAccepted (validateThoughtData c10_input) = false :=
  ⟨rfl, c10_positive_references c10_input 0 (by decide) (Or.inl rfl)⟩
